import Mathlib

/-!
Verification of the pixerve-server job lifecycle engine.

This file gives a shallow embedding of the Go sources of the repository
(package `job`, package `routes`, package `failures`, package `success`)
and proves properties of the embedded definitions.  Pure Go functions
become Lean functions; the mutable package-level state of `job/pending.go`
(pending list, job state table, cancel-handle map) becomes an explicit
state record with a step function over an operation language; the two
pebble-backed outcome stores become key lists with put/delete semantics.
Go `int` is modelled as `Int`; Go maps are modelled as association lists
(the unspecified iteration order of a Go map is abstracted as list order).
-/

namespace Pixerve

/-- Job state enumeration from `job/pending.go` (`JobState`, iota constants). -/
inductive JobState where
  | pending
  | processing
  | completed
  | failed
  | cancelled
  deriving DecidableEq, Repr, Inhabited

/-- `models.FormatSettings` from `models/jwt.go`. -/
structure FormatSettings where
  quality : Int
  speed : Int
  deriving DecidableEq, Repr, Inhabited

/-- `models.FormatSpec` from `models/jwt.go`: per-format settings and size list. -/
structure FormatSpec where
  settings : FormatSettings
  sizes : List (List Int)
  deriving DecidableEq, Repr, Inhabited

/-- `models.JobSpec` from `models/jwt.go`.  The Go maps `Formats`,
`StorageKeys` and `CallbackHeaders` are modelled as association lists. -/
structure JobSpec where
  completionCallback : String
  callbackHeaders : List (String × String)
  priority : Int
  keepOriginal : Bool
  formats : List (String × FormatSpec)
  storageKeys : List (String × String)
  directHost : Bool
  subDir : String
  deriving DecidableEq, Repr, Inhabited

/-- `models.PixerveJWT` from `models/jwt.go`. -/
structure PixerveJWT where
  issuer : String
  subject : String
  issuedAt : Int
  expiresAt : Int
  job : JobSpec
  deriving DecidableEq, Repr, Inhabited

/-- `models.ConversionJob` from `config/data.go` / `models`. -/
structure ConversionJob where
  encoder : String
  length : Int
  width : Int
  quality : Int
  speed : Int
  deriving DecidableEq, Repr, Inhabited

/-- `models.WriterJob` from `config/data.go` / `models`. -/
structure WriterJob where
  type : String
  credentials : List (String × String)
  deriving DecidableEq, Repr, Inhabited

/-- `combinedJob` from `job/token_parse.go`. -/
structure combinedJob where
  conversionJobs : List ConversionJob
  writerJobs : List WriterJob
  callbackURL : String
  callbackHeaders : List (String × String)
  priority : Int
  keepOriginal : Bool
  subDir : String
  deriving DecidableEq, Repr, Inhabited

/-- `job.JobInstructions` from the instructions file of package `job`. -/
structure JobInstructions where
  filePath : String
  originalFile : String
  hash : String
  job : combinedJob
  deriving DecidableEq, Repr, Inhabited

/-- Auxiliary for `goSplitDot`: splits the remaining characters at every
separator occurrence, accumulating the current field in reverse. -/
def goSplitDotAux (sep : Char) : List Char → List Char → List String
  | [], acc => [String.mk acc.reverse]
  | c :: rest, acc =>
      if c = sep then String.mk acc.reverse :: goSplitDotAux sep rest []
      else goSplitDotAux sep rest (c :: acc)

/-- Go's `strings.Split(s, ".")`: fields between dots, `[""]` for the
empty string, empty fields preserved. -/
def goSplitDot (s : String) : List String :=
  goSplitDotAux '.' s.toList []

/-- Go's `strings.Join(parts, sep)`. -/
def goJoin (sep : String) : List String → String
  | [] => ""
  | [x] => x
  | x :: rest => x ++ sep ++ goJoin sep rest

/-- `getExtensionForEncoder` from `job/processing.go` (the copy in
`routes/upload.go` is textually identical). -/
def getExtensionForEncoder (encoderName : String) : String :=
  match encoderName with
  | "jpeg" => "jpg"
  | "jpg" => "jpg"
  | "png" => "png"
  | "webp" => "webp"
  | "avif" => "avif"
  | _ => encoderName

/-- `generateOutputFilename` from `job/processing.go`.  Go's
`strings.Split(s, ".")` is modelled by `goSplitDot` and `strings.Join`
by `goJoin`. -/
def generateOutputFilename (hash originalFile : String) (convJob : ConversionJob) : String :=
  let nameParts := goSplitDot originalFile
  let originalName := goJoin "." nameParts.dropLast
  let originalExt := if nameParts.length > 1 then nameParts.getLastD "" else ""
  if convJob.encoder = "copy" then
    hash ++ "_" ++ originalName ++ "." ++ originalExt
  else
    let ext := getExtensionForEncoder convJob.encoder
    hash ++ "_" ++ originalName ++ "_" ++ toString convJob.length ++ "_" ++
      toString convJob.width ++ "_." ++ ext

/-- `calculateExpectedFiles` from `routes/upload.go`: the loop body repeats
the filename derivation of `generateOutputFilename` for every conversion. -/
def calculateExpectedFiles (hash originalFile : String)
    (conversionJobs : List ConversionJob) : List String :=
  conversionJobs.map (fun convJob =>
    let nameParts := goSplitDot originalFile
    let originalName := goJoin "." nameParts.dropLast
    let originalExt := if nameParts.length > 1 then nameParts.getLastD "" else ""
    if convJob.encoder = "copy" then
      hash ++ "_" ++ originalName ++ "." ++ originalExt
    else
      let ext := getExtensionForEncoder convJob.encoder
      hash ++ "_" ++ originalName ++ "_" ++ toString convJob.length ++ "_" ++
        toString convJob.width ++ "_." ++ ext)

/-- Spec-side stem, following the spec's filename scheme: the original
filename minus its last extension (for a filename without a dot there is no
extension to remove, so the stem is the whole filename). -/
def specStem (file : String) : String :=
  let parts := goSplitDot file
  if parts.length ≤ 1 then file else goJoin "." parts.dropLast

/-- Spec-side last extension: empty for a filename containing no dot. -/
def specExtIn (file : String) : String :=
  let parts := goSplitDot file
  if parts.length ≤ 1 then "" else parts.getLastD ""

/-- Spec-side filename scheme, following the spec's words: for encoder
`copy` the name is `hash_stem.ext_in`; otherwise
`hash_stem_length_width_.ext_out` with `ext_out` mapped from the encoder. -/
def specOutputFilename (hash originalFile : String) (convJob : ConversionJob) : String :=
  if convJob.encoder = "copy" then
    hash ++ "_" ++ specStem originalFile ++ "." ++ specExtIn originalFile
  else
    hash ++ "_" ++ specStem originalFile ++ "_" ++ toString convJob.length ++ "_" ++
      toString convJob.width ++ "_." ++ getExtensionForEncoder convJob.encoder

/-- Go's `strconv.Atoi`: optional sign, at least one digit, all digits,
value within the signed 64-bit range; anything else is an error. -/
def goAtoi (s : String) : Option Int :=
  let cs := s.toList
  let signAndDigits : Int × List Char :=
    match cs with
    | '+' :: rest => (1, rest)
    | '-' :: rest => (-1, rest)
    | _ => (1, cs)
  let sign := signAndDigits.1
  let ds := signAndDigits.2
  if ds.isEmpty then none
  else if ds.all Char.isDigit then
    let n : Int := ds.foldl (fun acc c => acc * 10 + ((c.toNat : Int) - 48)) 0
    let v := sign * n
    if v ≤ 9223372036854775807 ∧ -9223372036854775808 ≤ v then some v else none
  else none

/-- `getMaxWorkers` from `job/pending.go`.  `numCPU` stands for
`runtime.NumCPU()` and `env` for `os.Getenv("PIXERVE_MAX_WORKERS")`
(the empty string meaning the variable is unset).  Note that only the
environment path clamps to the 1..10 range; the default path merely
enforces the minimum of 1. -/
def getMaxWorkers (numCPU : Nat) (env : String) : Int :=
  let defaultWorkers : Int :=
    if (numCPU : Int) - 1 < 1 then 1 else (numCPU : Int) - 1
  if env ≠ "" then
    match goAtoi env with
    | some workers =>
        if workers < 1 then 1
        else if workers > 10 then 10
        else workers
    | none => defaultWorkers
  else defaultWorkers

/-- Go's `filepath.Base` for slash-separated paths: empty path gives `"."`,
a path of only separators gives `"/"`, otherwise the last element after
trimming trailing separators. -/
def filepathBase (path : String) : String :=
  if path = "" then "."
  else
    let trimmed := (path.toList.reverse.dropWhile (fun c => c == '/')).reverse
    if trimmed.isEmpty then "/"
    else String.mk (trimmed.reverse.takeWhile (fun c => c != '/')).reverse

/-- The package-level mutable state of `job/pending.go`: the `pendingJobs`
slice, the key set of the `activeJobs` map (hash → cancel function; only key
presence is observable here), the `jobStates` map, and the set of hashes
whose cancel function has been invoked (the contexts for which
`ctx.Err() == context.Canceled`). -/
structure JobSys where
  pendingJobs : List String
  activeJobs : List String
  jobStates : List (String × JobState)
  cancelFired : List String
  deriving DecidableEq, Repr, Inhabited

/-- Lookup in the `jobStates` map (`state, exists := jobStates[hash]`). -/
def lookupState (m : List (String × JobState)) (hash : String) : Option JobState :=
  match m.find? (fun p => p.1 == hash) with
  | some p => some p.2
  | none => none

/-- Assignment `jobStates[hash] = s` with Go map semantics: replace the
existing binding or add a new one. -/
def setState (m : List (String × JobState)) (hash : String) (s : JobState) :
    List (String × JobState) :=
  if m.any (fun p => p.1 == hash) then
    m.map (fun p => if p.1 == hash then (hash, s) else p)
  else m ++ [(hash, s)]

/-- The empty initial state of package `job`. -/
def initSys : JobSys := ⟨[], [], [], []⟩

/-- `AddPendingJob` from `job/pending.go`: append the directory and set the
state of its basename hash to `Pending`. -/
def addPendingJob (sys : JobSys) (dir : String) : JobSys :=
  { sys with
    pendingJobs := sys.pendingJobs ++ [dir]
    jobStates := setState sys.jobStates (filepathBase dir) JobState.pending }

/-- `RemovePendingJob` from `job/pending.go`: remove the first matching
path from the pending list. -/
def removePendingJob (sys : JobSys) (dir : String) : JobSys :=
  { sys with pendingJobs := sys.pendingJobs.erase dir }

/-- `GetPendingJobs` from `job/pending.go` (the returned copy). -/
def getPendingJobs (sys : JobSys) : List String :=
  sys.pendingJobs

/-- `CancelJob` from `job/pending.go`.  The first component is the returned
error (`Except.ok` for `nil`), the second the state after the call; every
error branch of the Go function returns before mutating anything. -/
def cancelJobRun (sys : JobSys) (hash : String) : Except String Unit × JobSys :=
  match lookupState sys.jobStates hash with
  | none => (Except.error ("job with hash " ++ hash ++ " not found"), sys)
  | some JobState.completed =>
      (Except.error ("job with hash " ++ hash ++ " is already completed"), sys)
  | some JobState.failed =>
      (Except.error ("job with hash " ++ hash ++ " has already failed"), sys)
  | some JobState.cancelled =>
      (Except.error ("job with hash " ++ hash ++ " is already cancelled"), sys)
  | some JobState.processing =>
      (Except.error ("job with hash " ++ hash ++
        " is currently processing and cannot be cancelled"), sys)
  | some JobState.pending =>
      if sys.activeJobs.contains hash then
        (Except.ok (),
          { sys with
            cancelFired := sys.cancelFired ++ [hash]
            activeJobs := sys.activeJobs.erase hash
            jobStates := setState sys.jobStates hash JobState.cancelled })
      else
        (Except.error ("job with hash " ++ hash ++ " is pending but not active"), sys)

/-- `GetJobState` from `job/pending.go`. -/
def getJobState (sys : JobSys) (hash : String) : Option JobState :=
  lookupState sys.jobStates hash

/-- `IsJobCancellable` from `job/pending.go`. -/
def isJobCancellable (sys : JobSys) (hash : String) : Bool :=
  match lookupState sys.jobStates hash with
  | some JobState.pending => true
  | _ => false

/-- `CancelJobHandler` from `routes/cancel.go`: the HTTP status produced
for a given method and `hash` query value, together with the state after
the call.  Every error from `CancelJob` is mapped to 404. -/
def cancelJobHandler (sys : JobSys) (method : String) (hash : String) : Nat × JobSys :=
  if method != "DELETE" then (405, sys)
  else if hash = "" then (400, sys)
  else
    match cancelJobRun sys hash with
    | (Except.error _, s) => (404, s)
    | (Except.ok _, s) => (204, s)

/-- The `CancelJobHandler` variant found elsewhere in the repository
(`src/unnamed/part_004`): it inspects the error text and maps the
not-found error to 404 and every other cancel error to 409. -/
def cancelJobHandlerVariant (sys : JobSys) (method : String) (hash : String) : Nat × JobSys :=
  if method != "DELETE" then (405, sys)
  else if hash = "" then (400, sys)
  else
    match cancelJobRun sys hash with
    | (Except.error e, s) =>
        if e = "job with hash " ++ hash ++ " not found" then (404, s) else (409, s)
    | (Except.ok _, s) => (204, s)

/-- The prologue of `processJob` in `job/pending.go`: set the state of the
job's hash to `Processing`, then register the fresh cancel function in
`activeJobs` (in that order). -/
def beginProcess (sys : JobSys) (dir : String) : JobSys :=
  let hash := filepathBase dir
  { sys with
    jobStates := setState sys.jobStates hash JobState.processing
    activeJobs := if sys.activeJobs.contains hash then sys.activeJobs
                  else sys.activeJobs ++ [hash] }

/-- The epilogue of `processJob` in `job/pending.go`: record the terminal
state (`Cancelled` when the job's context was cancelled, otherwise
`Failed` on error and `Completed` on success) and drop the cancel handle.
`ctxCancelled` stands for `ctx.Err() == context.Canceled`. -/
def finishProcess (sys : JobSys) (dir : String) (failed ctxCancelled : Bool) : JobSys :=
  let hash := filepathBase dir
  let terminal :=
    if failed then
      if ctxCancelled then JobState.cancelled else JobState.failed
    else JobState.completed
  { sys with
    jobStates := setState sys.jobStates hash terminal
    activeJobs := sys.activeJobs.erase hash }

/-- Operations on the shared state of package `job`, as invoked by the
HTTP handlers, the boot scanner and the worker pool. -/
inductive JobOp where
  | add (dir : String)
  | remove (dir : String)
  | scan (dirs : List String)
  | markProcessing (dir : String)
  | finish (dir : String) (failed ctxCancelled : Bool)
  | cancelReq (hash : String)
  deriving DecidableEq, Repr

/-- One step of the shared-state transition system.  `scan` models
`ScanForPendingJobs`, which calls `AddPendingJob` for every scratch
directory holding an instruction record. -/
def stepOp (sys : JobSys) : JobOp → JobSys
  | JobOp.add dir => addPendingJob sys dir
  | JobOp.remove dir => removePendingJob sys dir
  | JobOp.scan dirs => dirs.foldl addPendingJob sys
  | JobOp.markProcessing dir => beginProcess sys dir
  | JobOp.finish dir failed ctxCancelled => finishProcess sys dir failed ctxCancelled
  | JobOp.cancelReq hash => (cancelJobRun sys hash).2

/-- Run a trace of operations from the empty initial state. -/
def runOps (ops : List JobOp) : JobSys :=
  ops.foldl stepOp initSys

/-- The directories a trace operation appends to the pending list. -/
def opAdds : JobOp → List String
  | JobOp.add dir => [dir]
  | JobOp.scan dirs => dirs
  | _ => []

/-- All directories appended to the pending list by a trace. -/
def traceAdds (ops : List JobOp) : List String :=
  ops.foldr (fun op acc => opAdds op ++ acc) []

/-- The per-size body of the formats loop of `parseClaimsIntoJobs` in
`job/token_parse.go`: a one-element size is a square, a two-element size is
`width = size[0]`, `length = size[1]`, anything else is an error. -/
def sizeToConversion (format : String) (settings : FormatSettings)
    (size : List Int) : Except String ConversionJob :=
  match size with
  | [n] =>
      Except.ok { encoder := format, length := n, width := n,
                  quality := settings.quality, speed := settings.speed }
  | [w, h] =>
      Except.ok { encoder := format, length := h, width := w,
                  quality := settings.quality, speed := settings.speed }
  | _ => Except.error "invalid size specification"

/-- The inner sizes loop of `parseClaimsIntoJobs`: append one conversion
per size, stopping at the first invalid size. -/
def sizesToConversions (format : String) (settings : FormatSettings) :
    List (List Int) → Except String (List ConversionJob)
  | [] => Except.ok []
  | size :: rest =>
      match sizeToConversion format settings size with
      | Except.error e => Except.error e
      | Except.ok c =>
          match sizesToConversions format settings rest with
          | Except.error e => Except.error e
          | Except.ok cs => Except.ok (c :: cs)

/-- The outer formats loop of `parseClaimsIntoJobs`, over the format map in
iteration order. -/
def allFormatsConversions : List (String × FormatSpec) → Except String (List ConversionJob)
  | [] => Except.ok []
  | (format, spec) :: rest =>
      match sizesToConversions format spec.settings spec.sizes with
      | Except.error e => Except.error e
      | Except.ok cs =>
          match allFormatsConversions rest with
          | Except.error e => Except.error e
          | Except.ok more => Except.ok (cs ++ more)

/-- The synthetic `copy` conversion appended by `parseClaimsIntoJobs` when
`KeepOriginal` is set: `{"copy", 0, 0, 100, 0}`. -/
def copyConversion : ConversionJob :=
  { encoder := "copy", length := 0, width := 0, quality := 100, speed := 0 }

/-- `parseClaimsIntoJobs` from `job/token_parse.go` (a `none` task models
the Go `nil` pointer). -/
def parseClaimsIntoJobs (task : Option PixerveJWT) : Except String combinedJob :=
  match task with
  | none => Except.error "task is nil"
  | some task =>
      match allFormatsConversions task.job.formats with
      | Except.error e => Except.error e
      | Except.ok encodeJobs =>
          let writerJobs := task.job.storageKeys.map
            (fun p => ({ type := p.1, credentials := [("key", p.2)] } : WriterJob))
          let writerJobs :=
            if task.job.directHost then
              writerJobs ++ [{ type := "directServe", credentials := [] }]
            else writerJobs
          let encodeJobs :=
            if task.job.keepOriginal then encodeJobs ++ [copyConversion] else encodeJobs
          Except.ok
            { conversionJobs := encodeJobs
              writerJobs := writerJobs
              callbackURL := task.job.completionCallback
              callbackHeaders := task.job.callbackHeaders
              priority := task.job.priority
              keepOriginal := task.job.keepOriginal
              subDir := task.job.subDir }

/-- Spec-side per-size conversion, following the claim's words: `[N]` gives
`width = height = N`; `[W, H]` gives `width = W`, `length = H` (the third
case is irrelevant because such a size makes the mapping fail). -/
def specSizeConversion (format : String) (settings : FormatSettings)
    (size : List Int) : ConversionJob :=
  match size with
  | [n] => { encoder := format, length := n, width := n,
             quality := settings.quality, speed := settings.speed }
  | [w, h] => { encoder := format, length := h, width := w,
                quality := settings.quality, speed := settings.speed }
  | _ => { encoder := format, length := 0, width := 0,
           quality := settings.quality, speed := settings.speed }

/-- Spec-side conversion list: one step per size of every format, in map
iteration order. -/
def specConversions (job : JobSpec) : List ConversionJob :=
  job.formats.foldr
    (fun p acc => p.2.sizes.map (specSizeConversion p.1 p.2.settings) ++ acc) []

/-- The JSON payload assembled by `sendCallback` in `job/processing.go`
when a callback URL is configured (`none` when it is empty and no callback
is sent).  The wall-clock `timestamp` field is not modelled.  The
`file_count` field is literally `len(instr.Job.ConversionJobs) + 1`. -/
structure CallbackPayload where
  hash : String
  status : String
  fileCount : Nat
  jobData : combinedJob
  deriving DecidableEq, Repr

/-- Payload construction of `sendCallback` from `job/processing.go`. -/
def sendCallbackPayload (instr : JobInstructions) : Option CallbackPayload :=
  if instr.job.callbackURL = "" then none
  else
    some { hash := instr.hash
           status := "completed"
           fileCount := instr.job.conversionJobs.length + 1
           jobData := instr.job }

/-- Operations on the two pebble-backed outcome stores:
`success.StoreSuccess`, `failures.StoreFailure`, `success.DeleteSuccess`
and `failures.DeleteFailure`.  Neither store function touches the other
store. -/
inductive StoreOp where
  | storeSuccess (hash : String)
  | storeFailure (hash : String)
  | deleteSuccess (hash : String)
  | deleteFailure (hash : String)
  deriving DecidableEq, Repr

/-- The key sets of the two outcome databases (`success/store` and
`failures/store.go`).  Only key presence matters for the disjointness
property, so records are reduced to their `hash` keys. -/
structure OutcomeStores where
  successKeys : List String
  failureKeys : List String
  deriving DecidableEq, Repr

/-- `db.Set(key, data, pebble.Sync)`: keys are unique, a repeated put
overwrites in place. -/
def pebbleSet (keys : List String) (k : String) : List String :=
  if keys.contains k then keys else keys ++ [k]

/-- `db.Delete(key, pebble.Sync)`: idempotent key removal. -/
def pebbleDelete (keys : List String) (k : String) : List String :=
  keys.filter (fun x => x != k)

/-- One store operation applied to the pair of outcome stores, following
`StoreSuccess` / `StoreFailure` / `DeleteSuccess` / `DeleteFailure`. -/
def stepStore (st : OutcomeStores) : StoreOp → OutcomeStores
  | StoreOp.storeSuccess h => { st with successKeys := pebbleSet st.successKeys h }
  | StoreOp.storeFailure h => { st with failureKeys := pebbleSet st.failureKeys h }
  | StoreOp.deleteSuccess h => { st with successKeys := pebbleDelete st.successKeys h }
  | StoreOp.deleteFailure h => { st with failureKeys := pebbleDelete st.failureKeys h }

/-- Both stores start empty. -/
def initStores : OutcomeStores := ⟨[], []⟩

/-- Run a sequence of outcome-store operations from the empty stores. -/
def runStores (ops : List StoreOp) : OutcomeStores :=
  ops.foldl stepStore initStores

/-- The disjointness invariant claimed by the spec: no hash is present in
both outcome stores. -/
def storesDisjoint (st : OutcomeStores) : Prop :=
  ∀ h, ¬(h ∈ st.successKeys ∧ h ∈ st.failureKeys)

/-- The environment of one `ProcessJob` run (`job/processing.go`): the
results of its effectful steps.  `readInstr` is the result of
`ReadInstructions`, `mkdirErr` of `os.MkdirAll` for `output/`, `encoders`
the names registered in the encoder registry, `encodeErr` the result of
each encoder invocation, `writersResult` the first error of the writers
loop (`none` when all writes succeed), `storeSuccessErr` whether
`success.StoreSuccess` fails, and `cancelled` whether the job's context
was cancelled (`ctx.Err() == context.Canceled`). -/
structure ExecEnv where
  readInstr : Except String JobInstructions
  mkdirErr : Option String
  encoders : List String
  encodeErr : String → Option String
  writersResult : Option String
  storeSuccessErr : Bool
  cancelled : Bool

/-- The observable effects of one `ProcessJob` run: the key under which a
failure record was stored (if any), the key of a stored success record (if
any), whether the scratch directory was removed, the error value the
function body computes as its result (`retErr`), and whether that result
is ever returned to the caller (`returns`).  `ProcessJob` ends with
`defer func() { <-cleanupDone }()`, and `cleanupDone` is closed by the
cancellation-watcher goroutine only after `<-ctx.Done()` unblocks; the
context's cancel function is invoked nowhere on a non-cancelled run
(`processJob` never calls it and `CancelJob` refuses `Processing` jobs),
so the deferred wait unblocks exactly when the cancel handle fired.  The
in-body effects (store puts, the success-path directory removal) all
happen before the deferred wait. -/
structure ProcEffects where
  failureStored : Option String
  successStored : Option String
  dirRemoved : Bool
  retErr : Option String
  returns : Bool
  deriving DecidableEq, Repr

/-- `storeFailure` from `job/processing.go`: a failure record keyed by the
instruction's hash is stored unless the hash is empty. -/
def storeFailureKey (instr : JobInstructions) : Option String :=
  if instr.hash = "" then none else some instr.hash

/-- The zero value of `combinedJob`. -/
def emptyJob : combinedJob := ⟨[], [], "", [], 0, false, ""⟩

/-- `processConversions`/`runConversion` from `job/processing.go`:
cancellation is checked at the top of every iteration, the encoder is
looked up in the registry (`encoder not found` when absent), the encoder
is invoked, and on success the deterministic output filename is appended. -/
def processConversionsRun (env : ExecEnv) (cancelled : Bool) (hash originalFile : String) :
    List ConversionJob → Except String (List String)
  | [] => Except.ok []
  | convJob :: rest =>
      if cancelled then Except.error "job cancelled"
      else if env.encoders.contains convJob.encoder then
        match env.encodeErr convJob.encoder with
        | some e =>
            Except.error ("conversion failed for " ++ convJob.encoder ++
              ": encoding failed: " ++ e)
        | none =>
            match processConversionsRun env cancelled hash originalFile rest with
            | Except.error e => Except.error e
            | Except.ok files =>
                Except.ok (generateOutputFilename hash originalFile convJob :: files)
      else
        Except.error ("conversion failed for " ++ convJob.encoder ++
          ": encoder " ++ convJob.encoder ++ " not found")

/-- `ProcessJob` from `job/processing.go` as an effect function.  The
scratch directory is removed by the explicit `os.RemoveAll` on the success
path, and by the cancellation-watcher goroutine only when the context was
cancelled; no failure branch removes it.  On a read error the failure
record carries only the basename hash (`JobInstructions{Hash: hash}`).
Every branch reaches its `return` statement (so the store puts and the
success-path removal occur), but the final deferred `<-cleanupDone` then
blocks until the watcher has seen `ctx.Done()`, so the result reaches the
caller (`returns`) exactly when the context was cancelled. -/
def processJobModel (jobDir : String) (env : ExecEnv) : ProcEffects :=
  match env.readInstr with
  | Except.error e =>
      let instr : JobInstructions :=
        { filePath := "", originalFile := "", hash := filepathBase jobDir, job := emptyJob }
      { failureStored := storeFailureKey instr, successStored := none,
        dirRemoved := env.cancelled, retErr := some e, returns := env.cancelled }
  | Except.ok instr =>
      match env.mkdirErr with
      | some e =>
          { failureStored := storeFailureKey instr, successStored := none,
            dirRemoved := env.cancelled, retErr := some e, returns := env.cancelled }
      | none =>
          match processConversionsRun env env.cancelled instr.hash instr.originalFile
              instr.job.conversionJobs with
          | Except.error e =>
              { failureStored := storeFailureKey instr, successStored := none,
                dirRemoved := env.cancelled, retErr := some e, returns := env.cancelled }
          | Except.ok _ =>
              match env.writersResult with
              | some e =>
                  { failureStored := storeFailureKey instr, successStored := none,
                    dirRemoved := env.cancelled, retErr := some e, returns := env.cancelled }
              | none =>
                  { failureStored := none
                    successStored := if env.storeSuccessErr then none else some instr.hash
                    dirRemoved := true
                    retErr := none
                    returns := env.cancelled }

/-- One worker-pool iteration for one job (`ProcessPendingJobs` body plus
`processJob` in `job/pending.go`): mark processing and register the cancel
handle, then run `ProcessJob`.  The epilogue — recording the terminal
state and removing the directory from the pending list — runs only when
`ProcessJob` actually returns to `processJob`; on a run whose context was
never cancelled it does not, and the job stays `Processing` and stays in
the pending list. -/
def workerIteration (sys : JobSys) (dir : String) (env : ExecEnv) :
    JobSys × ProcEffects :=
  let sys1 := beginProcess sys dir
  let eff := processJobModel dir env
  if eff.returns then
    let sys2 := finishProcess sys1 dir eff.retErr.isSome env.cancelled
    (removePendingJob sys2 dir, eff)
  else (sys1, eff)

/-- State reached by submitting one upload: `AddPendingJob("/tmp/h1")` has
run and no worker has picked the job up yet. -/
def sysPendingEx : JobSys := runOps [JobOp.add "/tmp/h1"]

/-- State reached when a worker has claimed the job: `processJob` has set
the state to `Processing` and registered the cancel handle. -/
def sysProcessingEx : JobSys :=
  runOps [JobOp.add "/tmp/h1", JobOp.markProcessing "/tmp/h1"]

/-- An execution environment in which reading `instructions.json` fails
and the job's context is never cancelled. -/
def envReadFailEx : ExecEnv :=
  { readInstr := Except.error "failed to open instructions file"
    mkdirErr := none
    encoders := []
    encodeErr := fun _ => none
    writersResult := none
    storeSuccessErr := false
    cancelled := false }

/-- The worker-pool run of the pending job of `sysPendingEx` under
`envReadFailEx`. -/
def workerResEx : JobSys × ProcEffects :=
  workerIteration sysPendingEx "/tmp/h1" envReadFailEx

/-- A verified claim set with one format (two sizes) and
`keepOriginal = true`. -/
def taskEx : PixerveJWT :=
  { issuer := "iss", subject := "sub", issuedAt := 0, expiresAt := 0,
    job :=
      { completionCallback := "https://example.com/cb"
        callbackHeaders := []
        priority := 0
        keepOriginal := true
        formats := [("jpg", { settings := { quality := 80, speed := 1 },
                              sizes := [[800, 600], [400]] })]
        storageKeys := []
        directHost := true
        subDir := "u" } }

/-- A claim set containing a three-element size, which is invalid. -/
def taskBadEx : PixerveJWT :=
  { issuer := "iss", subject := "sub", issuedAt := 0, expiresAt := 0,
    job :=
      { completionCallback := ""
        callbackHeaders := []
        priority := 0
        keepOriginal := false
        formats := [("jpg", { settings := { quality := 80, speed := 1 },
                              sizes := [[1, 2, 3]] })]
        storageKeys := []
        directHost := false
        subDir := "" } }

/-- The combined job produced for `taskEx`. -/
def cjEx : combinedJob :=
  match parseClaimsIntoJobs (some taskEx) with
  | Except.ok c => c
  | Except.error _ => emptyJob

/-- Instructions for a job carrying `cjEx` (its callback URL is set). -/
def instrEx : JobInstructions :=
  { filePath := "/tmp/h", originalFile := "a.png", hash := "h", job := cjEx }

/-- A trace whose added directories are pairwise distinct. -/
def opsDistinctEx : List JobOp :=
  [JobOp.add "/a", JobOp.scan ["/b"], JobOp.remove "/a", JobOp.cancelReq "x"]

/-- C1: the spec says a cancellation request on a `Pending` job succeeds
with 204 and moves the job to `Cancelled`.  The code registers a cancel
handle only inside `processJob`, after the state has already been set to
`Processing`, so a job that is still `Pending` has no handle: `CancelJob`
fails with "pending but not active", the handler answers 404, and the
state stays `Pending`. -/
theorem cancel_pending_job_fails_with_not_active :
    getJobState sysPendingEx "h1" = some JobState.pending ∧
    (cancelJobRun sysPendingEx "h1").1 =
      Except.error "job with hash h1 is pending but not active" ∧
    cancelJobHandler sysPendingEx "DELETE" "h1" = (404, sysPendingEx) ∧
    getJobState (cancelJobHandler sysPendingEx "DELETE" "h1").2 "h1" =
      some JobState.pending :=
  ⟨rfl, rfl, rfl, rfl⟩

/-- C4: the spec maps a cancellation attempt on a non-cancellable
(`Processing`) job to 409 Conflict, but `routes/cancel.go` maps every
`CancelJob` error to 404; the handler variant found in the repository
(`src/unnamed/part_004`) does return 409 on the same state.  Unknown
hashes do get 404, and the claimed 204 success shape is preserved by the
handler's success branch. -/
theorem cancel_processing_mapped_to_404 :
    getJobState sysProcessingEx "h1" = some JobState.processing ∧
    cancelJobHandler sysProcessingEx "DELETE" "h1" = (404, sysProcessingEx) ∧
    cancelJobHandlerVariant sysProcessingEx "DELETE" "h1" = (409, sysProcessingEx) ∧
    cancelJobHandler initSys "DELETE" "unknown" = (404, initSys) :=
  ⟨rfl, rfl, rfl, rfl⟩

/-- C7: `getMaxWorkers` claims (in its own comment and in the spec) a
clamp to 1..10, but only the environment-override path clamps above: with
16 cores and no override it returns 15.  The override path does clamp, and
the minimum of 1 holds. -/
theorem getMaxWorkers_default_exceeds_limit :
    getMaxWorkers 16 "" = 15 ∧ ¬(getMaxWorkers 16 "" ≤ 10) ∧
    getMaxWorkers 16 "20" = 10 ∧ getMaxWorkers 1 "" = 1 := by
  refine ⟨rfl, by decide, rfl, rfl⟩

/-- C5 counterexample: for an original filename without a dot the code
drops the whole name (the stem becomes empty) instead of using the
filename as the stem, so the copy-encoder output for `photo` is `h_.` and
not the `h_photo.` demanded by the spec's scheme. -/
theorem filename_dotless_counterexample :
    generateOutputFilename "h" "photo" copyConversion = "h_." ∧
    specOutputFilename "h" "photo" copyConversion = "h_photo." ∧
    generateOutputFilename "h" "photo" copyConversion ≠
      specOutputFilename "h" "photo" copyConversion ∧
    calculateExpectedFiles "h" "photo" [copyConversion] = ["h_."] :=
  ⟨rfl, rfl, by decide, rfl⟩

/-- C6 counterexample: `AddPendingJob` appends unconditionally, so the
duplicate upload of an in-flight hash adds the same scratch directory a
second time and `GetPendingJobs` returns a list with a duplicate entry. -/
theorem pending_duplicate_counterexample :
    getPendingJobs (runOps [JobOp.add "/tmp/h1", JobOp.add "/tmp/h1"]) =
      ["/tmp/h1", "/tmp/h1"] ∧
    ¬ (getPendingJobs (runOps [JobOp.add "/tmp/h1", JobOp.add "/tmp/h1"])).Nodup :=
  ⟨rfl, by decide⟩

/-- C3 counterexample: neither store function deletes from the other
store, so a hash that first fails and is then re-uploaded and succeeds is
present in both outcome stores at once. -/
theorem stores_disjoint_counterexample :
    "h" ∈ (runStores [StoreOp.storeFailure "h", StoreOp.storeSuccess "h"]).successKeys ∧
    "h" ∈ (runStores [StoreOp.storeFailure "h", StoreOp.storeSuccess "h"]).failureKeys ∧
    ¬ storesDisjoint (runStores [StoreOp.storeFailure "h", StoreOp.storeSuccess "h"]) :=
  ⟨by decide, by decide, fun hd => hd "h" ⟨by decide, by decide⟩⟩

/-- C2: the claim's failure path says a failed execution persists a
failure record keyed by the job's hash, is removed from the pending
registry, and has its scratch directory best-effort removed.  On a job
whose instruction read fails with the context never cancelled, the code
does persist the failure record keyed by the basename hash, but
`ProcessJob` then blocks forever in its deferred wait on the cancellation
watcher (`returns = false`), so the terminal state is never recorded and
`RemovePendingJob` never runs — the job stays `Processing` and stays in
the pending list — and no failure branch removes the scratch directory. -/
theorem processJob_failure_stuck_effects :
    workerResEx.2.failureStored = some "h1" ∧
    workerResEx.2.retErr = some "failed to open instructions file" ∧
    workerResEx.2.returns = false ∧
    workerResEx.1.pendingJobs = ["/tmp/h1"] ∧
    getJobState workerResEx.1 "h1" = some JobState.processing ∧
    workerResEx.2.dirRemoved = false :=
  ⟨rfl, rfl, rfl, rfl, rfl, rfl⟩

/-- C10: `CancelJob` is atomic on error — every error branch returns
before any mutation, so the job state table, the cancel-handle map and the
pending list are exactly as before the call. -/
theorem cancelJob_error_atomic (sys : JobSys) (hash : String) (e : String)
    (h : (cancelJobRun sys hash).1 = Except.error e) :
    (cancelJobRun sys hash).2 = sys := by
  revert h
  unfold cancelJobRun
  cases hst : lookupState sys.jobStates hash with
  | none => intro h; rfl
  | some st =>
    cases st with
    | pending =>
      intro h
      by_cases hc : sys.activeJobs.contains hash = true
      · rw [if_pos hc] at h
        exact absurd h (by simp)
      · rw [if_neg hc]
    | processing => intro h; rfl
    | completed => intro h; rfl
    | failed => intro h; rfl
    | cancelled => intro h; rfl

/-- Witness for `cancelJob_error_atomic` at the unknown hash `x` in the
initial state. -/
theorem cancelJob_error_atomic_witness :
    (cancelJobRun initSys "x").1 = Except.error "job with hash x not found" ∧
    (cancelJobRun initSys "x").2 = initSys :=
  ⟨rfl, cancelJob_error_atomic initSys "x" "job with hash x not found" rfl⟩

/-- C9: when a callback URL is configured, the completion-callback payload
sets `file_count` to `len(conversions) + 1`, literally — also when
`keep_original` already appended a `copy` conversion. -/
theorem sendCallback_file_count (instr : JobInstructions)
    (h : instr.job.callbackURL ≠ "") :
    sendCallbackPayload instr =
      some { hash := instr.hash, status := "completed",
             fileCount := instr.job.conversionJobs.length + 1,
             jobData := instr.job } := by
  simp [sendCallbackPayload, h]

/-- Witness for `sendCallback_file_count` on the instructions of the
`taskEx` job (whose `keepOriginal` is true, so the conversion list already
contains the synthetic copy step). -/
theorem sendCallback_file_count_witness :
    instrEx.job.callbackURL ≠ "" ∧
    sendCallbackPayload instrEx =
      some { hash := instrEx.hash, status := "completed",
             fileCount := instrEx.job.conversionJobs.length + 1,
             jobData := instrEx.job } :=
  ⟨by decide, sendCallback_file_count instrEx (by decide)⟩

/-- C5 amended: for an original filename containing at least one dot, the
code's filename derivation agrees with the spec's normative scheme, and
the `/upload` expected-files computation agrees with the executor's
per-conversion filenames. -/
theorem filename_scheme_with_extension (hash originalFile : String)
    (convJob : ConversionJob)
    (hdot : 1 < (goSplitDot originalFile).length) :
    generateOutputFilename hash originalFile convJob =
      specOutputFilename hash originalFile convJob ∧
    ∀ jobs, calculateExpectedFiles hash originalFile jobs =
      jobs.map (generateOutputFilename hash originalFile) := by
  constructor
  · have hle : ¬((goSplitDot originalFile).length ≤ 1) := by omega
    simp only [generateOutputFilename, specOutputFilename, specStem, specExtIn,
      if_pos hdot, if_neg hle]
  · intro jobs
    rfl

/-- Witness for `filename_scheme_with_extension` at `photo.jpg`. -/
theorem filename_scheme_with_extension_witness :
    1 < (goSplitDot "photo.jpg").length ∧
    generateOutputFilename "h" "photo.jpg" copyConversion =
      specOutputFilename "h" "photo.jpg" copyConversion :=
  ⟨by decide, (filename_scheme_with_extension "h" "photo.jpg" copyConversion (by decide)).1⟩

/-- `CancelJob` never touches the pending list: every branch leaves
`pendingJobs` unchanged. -/
theorem cancelJobRun_pendingJobs (sys : JobSys) (hash : String) :
    ((cancelJobRun sys hash).2).pendingJobs = sys.pendingJobs := by
  unfold cancelJobRun
  cases lookupState sys.jobStates hash with
  | none => rfl
  | some st =>
    cases st with
    | pending =>
      by_cases hc : sys.activeJobs.contains hash = true
      · rw [if_pos hc]
      · rw [if_neg hc]
    | processing => rfl
    | completed => rfl
    | failed => rfl
    | cancelled => rfl

/-- Folding `AddPendingJob` over a directory list adds exactly one
occurrence per listed directory. -/
theorem foldl_addPendingJob_count (dirs : List String) :
    ∀ (sys : JobSys) (d : String),
      ((dirs.foldl addPendingJob sys).pendingJobs.count d) =
        sys.pendingJobs.count d + dirs.count d := by
  induction dirs with
  | nil => intro sys d; simp
  | cons x xs ih =>
    intro sys d
    rw [List.foldl_cons, ih]
    simp only [addPendingJob, List.count_append, List.count_cons]
    simp [List.count_singleton']
    omega

/-- Each shared-state operation increases the multiplicity of a directory
in the pending list by at most the number of times the operation adds it. -/
theorem stepOp_pending_count (sys : JobSys) (op : JobOp) (d : String) :
    ((stepOp sys op).pendingJobs.count d) ≤
      sys.pendingJobs.count d + (opAdds op).count d := by
  cases op with
  | add dir =>
    simp [stepOp, addPendingJob, opAdds, List.count_append]
  | remove dir =>
    simp only [stepOp, removePendingJob, opAdds]
    exact le_trans (List.Sublist.count_le (List.erase_sublist _ _) d) (by simp)
  | scan dirs =>
    simp only [stepOp, opAdds]
    exact le_of_eq (foldl_addPendingJob_count dirs sys d)
  | markProcessing dir => simp [stepOp, beginProcess, opAdds]
  | finish dir failed ctxCancelled => simp [stepOp, finishProcess, opAdds]
  | cancelReq hash =>
    simp only [stepOp, opAdds]
    rw [cancelJobRun_pendingJobs]
    simp

/-- Over a whole trace, the multiplicity of a directory in the pending
list is bounded by its multiplicity among the trace's additions. -/
theorem runOps_pending_count (ops : List JobOp) :
    ∀ (sys : JobSys) (d : String),
      ((ops.foldl stepOp sys).pendingJobs.count d) ≤
        sys.pendingJobs.count d + (traceAdds ops).count d := by
  induction ops with
  | nil => intro sys d; simp [traceAdds]
  | cons op rest ih =>
    intro sys d
    have h1 := ih (stepOp sys op) d
    have h2 := stepOp_pending_count sys op d
    have h3 : traceAdds (op :: rest) = opAdds op ++ traceAdds rest := rfl
    rw [List.foldl_cons]
    rw [h3, List.count_append]
    omega

/-- C6 amended: the pending list is duplicate-free for every trace whose
added directories are pairwise distinct; a duplicate upload (which calls
`AddPendingJob` twice with the same directory) does produce a duplicate
entry. -/
theorem pendingJobs_nodup_of_distinct_adds (ops : List JobOp)
    (h : (traceAdds ops).Nodup) : (getPendingJobs (runOps ops)).Nodup := by
  rw [List.nodup_iff_count_le_one] at h ⊢
  intro d
  have hc := runOps_pending_count ops initSys d
  simp only [initSys] at hc
  simp only [getPendingJobs, runOps]
  calc ((ops.foldl stepOp initSys).pendingJobs.count d)
      ≤ (([] : List String).count d) + (traceAdds ops).count d := hc
    _ ≤ 1 := by simpa using h d

/-- Witness for `pendingJobs_nodup_of_distinct_adds` on a trace mixing an
add, a boot scan, a removal and a cancellation request. -/
theorem pendingJobs_nodup_of_distinct_adds_witness :
    (traceAdds opsDistinctEx).Nodup ∧ (getPendingJobs (runOps opsDistinctEx)).Nodup :=
  ⟨by decide, pendingJobs_nodup_of_distinct_adds opsDistinctEx (by decide)⟩

/-- A `pebbleSet` member is the inserted key or an existing member. -/
theorem mem_pebbleSet (keys : List String) (k h : String)
    (hm : h ∈ pebbleSet keys k) : h ∈ keys ∨ h = k := by
  unfold pebbleSet at hm
  by_cases hc : keys.contains k = true
  · rw [if_pos hc] at hm; exact Or.inl hm
  · rw [if_neg hc] at hm
    rcases List.mem_append.mp hm with hin | hin
    · exact Or.inl hin
    · exact Or.inr (List.mem_singleton.mp hin)

/-- A hash present in the success store after a trace was put there by
some `StoreSuccess` of the trace (or was present initially). -/
theorem mem_successKeys_of_run (ops : List StoreOp) :
    ∀ (st : OutcomeStores) (h : String),
      h ∈ (ops.foldl stepStore st).successKeys →
      h ∈ st.successKeys ∨ StoreOp.storeSuccess h ∈ ops := by
  induction ops with
  | nil => intro st h hm; exact Or.inl hm
  | cons op rest ih =>
    intro st h hm
    rw [List.foldl_cons] at hm
    rcases ih (stepStore st op) h hm with hin | hmem
    · cases op with
      | storeSuccess k =>
        rcases mem_pebbleSet st.successKeys k h hin with h1 | h2
        · exact Or.inl h1
        · exact Or.inr (h2 ▸ List.mem_cons_self _ _)
      | storeFailure k => exact Or.inl hin
      | deleteSuccess k => exact Or.inl (List.mem_of_mem_filter hin)
      | deleteFailure k => exact Or.inl hin
    · exact Or.inr (List.mem_cons_of_mem _ hmem)

/-- A hash present in the failure store after a trace was put there by
some `StoreFailure` of the trace (or was present initially). -/
theorem mem_failureKeys_of_run (ops : List StoreOp) :
    ∀ (st : OutcomeStores) (h : String),
      h ∈ (ops.foldl stepStore st).failureKeys →
      h ∈ st.failureKeys ∨ StoreOp.storeFailure h ∈ ops := by
  induction ops with
  | nil => intro st h hm; exact Or.inl hm
  | cons op rest ih =>
    intro st h hm
    rw [List.foldl_cons] at hm
    rcases ih (stepStore st op) h hm with hin | hmem
    · cases op with
      | storeSuccess k => exact Or.inl hin
      | storeFailure k =>
        rcases mem_pebbleSet st.failureKeys k h hin with h1 | h2
        · exact Or.inl h1
        · exact Or.inr (h2 ▸ List.mem_cons_self _ _)
      | deleteSuccess k => exact Or.inl hin
      | deleteFailure k => exact Or.inl (List.mem_of_mem_filter hin)
    · exact Or.inr (List.mem_cons_of_mem _ hmem)

/-- C3 amended: the two outcome stores are maintained independently —
`StoreSuccess` never clears a failure record and `StoreFailure` never
clears a success record — so disjointness holds exactly for those traces
in which no hash receives both a `StoreSuccess` and a `StoreFailure`; at
every observation point of such a trace the key sets are disjoint. -/
theorem stores_disjoint_of_no_double_outcome (ops : List StoreOp)
    (hnd : ∀ h, ¬(StoreOp.storeSuccess h ∈ ops ∧ StoreOp.storeFailure h ∈ ops)) :
    ∀ pre post, ops = pre ++ post → storesDisjoint (runStores pre) := by
  intro pre post hsplit h hboth
  rcases hboth with ⟨hs, hf⟩
  have h1 := mem_successKeys_of_run pre initStores h hs
  have h2 := mem_failureKeys_of_run pre initStores h hf
  simp only [initStores, List.not_mem_nil, false_or] at h1 h2
  exact hnd h ⟨hsplit ▸ List.mem_append_left _ h1,
    hsplit ▸ List.mem_append_left _ h2⟩

/-- Witness for `stores_disjoint_of_no_double_outcome`: a failure for `a`
that is later deleted, then a success for `b`; after the first two
operations the stores are disjoint at the key `a`. -/
theorem stores_disjoint_of_no_double_outcome_witness :
    ¬("a" ∈ (runStores [StoreOp.storeFailure "a", StoreOp.deleteFailure "a"]).successKeys ∧
      "a" ∈ (runStores [StoreOp.storeFailure "a", StoreOp.deleteFailure "a"]).failureKeys) :=
  stores_disjoint_of_no_double_outcome
    [StoreOp.storeFailure "a", StoreOp.deleteFailure "a", StoreOp.storeSuccess "b"]
    (fun h hc => by
      rcases hc with ⟨h1, h2⟩
      simp only [List.mem_cons, List.not_mem_nil, or_false] at h1 h2
      rcases h1 with h1 | h1 | h1 <;> rcases h2 with h2 | h2 | h2 <;>
        first
        | exact StoreOp.noConfusion h1
        | exact StoreOp.noConfusion h2
        | exact absurd (StoreOp.storeSuccess.inj h1 ▸ StoreOp.storeFailure.inj h2) (by decide))
    [StoreOp.storeFailure "a", StoreOp.deleteFailure "a"] [StoreOp.storeSuccess "b"]
    rfl "a"

/-- A successful per-size parse yields exactly the claim's conversion:
`[N]` squares, `[W, H]` with width first. -/
theorem sizeToConversion_ok (f : String) (st : FormatSettings) :
    ∀ (s : List Int) (c : ConversionJob), sizeToConversion f st s = Except.ok c →
      c = specSizeConversion f st s := by
  intro s c h
  match s with
  | [] => exact Except.noConfusion h
  | [n] =>
      injection h with h
      rw [← h]; rfl
  | [w, hgt] =>
      injection h with h
      rw [← h]; rfl
  | a :: b :: c0 :: t => exact Except.noConfusion h

/-- A size of arity other than one or two makes the per-size parse fail. -/
theorem sizeToConversion_err (f : String) (st : FormatSettings) :
    ∀ s : List Int, s.length ≠ 1 → s.length ≠ 2 →
      ∃ e, sizeToConversion f st s = Except.error e := by
  intro s h1 h2
  match s with
  | [] => exact ⟨"invalid size specification", rfl⟩
  | [n] => exact absurd rfl h1
  | [w, hgt] => exact absurd rfl h2
  | a :: b :: c0 :: t => exact ⟨"invalid size specification", rfl⟩

/-- A successful sizes-loop parse maps every size by the claim's rule. -/
theorem sizesToConversions_ok (f : String) (st : FormatSettings) :
    ∀ (sizes : List (List Int)) (cs : List ConversionJob),
      sizesToConversions f st sizes = Except.ok cs →
      cs = sizes.map (specSizeConversion f st) := by
  intro sizes
  induction sizes with
  | nil =>
    intro cs h
    injection h with h
    rw [← h]; rfl
  | cons s rest ih =>
    intro cs h
    unfold sizesToConversions at h
    cases h1 : sizeToConversion f st s with
    | error e => rw [h1] at h; exact Except.noConfusion h
    | ok c =>
      rw [h1] at h
      dsimp only at h
      cases h2 : sizesToConversions f st rest with
      | error e => rw [h2] at h; exact Except.noConfusion h
      | ok cs0 =>
        rw [h2] at h
        dsimp only at h
        injection h with h
        rw [← h, List.map_cons, sizeToConversion_ok f st s c h1, ih cs0 h2]

/-- An invalid size anywhere in the list makes the sizes loop fail. -/
theorem sizesToConversions_err (f : String) (st : FormatSettings) :
    ∀ (sizes : List (List Int)) (s : List Int), s ∈ sizes →
      s.length ≠ 1 → s.length ≠ 2 →
      ∃ e, sizesToConversions f st sizes = Except.error e := by
  intro sizes
  induction sizes with
  | nil => intro s hs; exact absurd hs (List.not_mem_nil s)
  | cons s0 rest ih =>
    intro s hs h1 h2
    cases h0 : sizeToConversion f st s0 with
    | error e =>
      refine ⟨e, ?_⟩
      unfold sizesToConversions
      rw [h0]
    | ok c =>
      rcases List.mem_cons.mp hs with heq | hmem
      · subst heq
        rcases sizeToConversion_err f st s h1 h2 with ⟨e, he⟩
        rw [he] at h0
        exact Except.noConfusion h0
      · rcases ih s hmem h1 h2 with ⟨e, he⟩
        refine ⟨e, ?_⟩
        unfold sizesToConversions
        rw [h0]
        dsimp only
        rw [he]

/-- A successful formats-loop parse concatenates, format by format, the
per-size conversions of the claim's rule. -/
theorem allFormatsConversions_ok :
    ∀ (formats : List (String × FormatSpec)) (cs : List ConversionJob),
      allFormatsConversions formats = Except.ok cs →
      cs = formats.foldr
        (fun p acc => p.2.sizes.map (specSizeConversion p.1 p.2.settings) ++ acc) [] := by
  intro formats
  induction formats with
  | nil =>
    intro cs h
    injection h with h
    rw [← h]; rfl
  | cons p rest ih =>
    intro cs h
    unfold allFormatsConversions at h
    cases h1 : sizesToConversions p.1 p.2.settings p.2.sizes with
    | error e => rw [h1] at h; exact Except.noConfusion h
    | ok cs0 =>
      rw [h1] at h
      dsimp only at h
      cases h2 : allFormatsConversions rest with
      | error e => rw [h2] at h; exact Except.noConfusion h
      | ok more =>
        rw [h2] at h
        dsimp only at h
        injection h with h
        rw [← h, List.foldr_cons, sizesToConversions_ok p.1 p.2.settings p.2.sizes cs0 h1,
          ih more h2]

/-- An invalid size in any format makes the formats loop fail. -/
theorem allFormatsConversions_err :
    ∀ (formats : List (String × FormatSpec)) (p : String × FormatSpec)
      (s : List Int), p ∈ formats → s ∈ p.2.sizes →
      s.length ≠ 1 → s.length ≠ 2 →
      ∃ e, allFormatsConversions formats = Except.error e := by
  intro formats
  induction formats with
  | nil => intro p s hp; exact absurd hp (List.not_mem_nil p)
  | cons p0 rest ih =>
    intro p s hp hs h1 h2
    cases h0 : sizesToConversions p0.1 p0.2.settings p0.2.sizes with
    | error e =>
      refine ⟨e, ?_⟩
      unfold allFormatsConversions
      rw [h0]
    | ok cs0 =>
      rcases List.mem_cons.mp hp with heq | hmem
      · subst heq
        rcases sizesToConversions_err p.1 p.2.settings p.2.sizes s hs h1 h2 with ⟨e, he⟩
        rw [he] at h0
        exact Except.noConfusion h0
      · rcases ih p s hmem hs h1 h2 with ⟨e, he⟩
        refine ⟨e, ?_⟩
        unfold allFormatsConversions
        rw [h0]
        dsimp only
        rw [he]

/-- C8: for every verified claim set, a successful mapping produces, per
format and per size, the claim's conversion (`[N]` squares,
`[W, H]` with `width = W`, `length = H`), with exactly one `copy` step
`{"copy", 0, 0, 100, 0}` appended at the end when `keep_original` is
true; and any size of other arity makes the whole mapping fail. -/
theorem parseClaimsIntoJobs_size_mapping (task : PixerveJWT) :
    (∀ cj, parseClaimsIntoJobs (some task) = Except.ok cj →
      cj.conversionJobs = specConversions task.job ++
        (if task.job.keepOriginal then [copyConversion] else [])) ∧
    ((∃ p, p ∈ task.job.formats ∧ ∃ s, s ∈ p.2.sizes ∧
        s.length ≠ 1 ∧ s.length ≠ 2) →
      ∃ e, parseClaimsIntoJobs (some task) = Except.error e) := by
  constructor
  · intro cj hcj
    unfold parseClaimsIntoJobs at hcj
    dsimp only at hcj
    cases hall : allFormatsConversions task.job.formats with
    | error e => rw [hall] at hcj; exact Except.noConfusion hcj
    | ok encodeJobs =>
      rw [hall] at hcj
      dsimp only at hcj
      injection hcj with hcj
      have henc := allFormatsConversions_ok task.job.formats encodeJobs hall
      rw [← hcj]
      dsimp only
      cases hk : task.job.keepOriginal with
      | true =>
        rw [if_pos rfl, if_pos rfl, henc]
        rfl
      | false =>
        rw [if_neg (by simp), if_neg (by simp), henc, List.append_nil]
        rfl
  · intro hbad
    rcases hbad with ⟨p, hp, s, hs, h1, h2⟩
    rcases allFormatsConversions_err task.job.formats p s hp hs h1 h2 with ⟨e, he⟩
    refine ⟨e, ?_⟩
    unfold parseClaimsIntoJobs
    dsimp only
    rw [he]

/-- Witness for `parseClaimsIntoJobs_size_mapping`: the `taskEx` claim set
parses to `cjEx` whose conversions follow the scheme with the copy step
appended, while `taskBadEx` (containing the size `[1, 2, 3]`) fails. -/
theorem parseClaimsIntoJobs_size_mapping_witness :
    parseClaimsIntoJobs (some taskEx) = Except.ok cjEx ∧
    cjEx.conversionJobs = specConversions taskEx.job ++
      (if taskEx.job.keepOriginal then [copyConversion] else []) ∧
    (∃ e, parseClaimsIntoJobs (some taskBadEx) = Except.error e) := by
  refine ⟨rfl, ?_, ?_⟩
  · exact (parseClaimsIntoJobs_size_mapping taskEx).1 cjEx rfl
  · exact (parseClaimsIntoJobs_size_mapping taskBadEx).2
      ⟨("jpg", { settings := { quality := 80, speed := 1 }, sizes := [[1, 2, 3]] }),
        by decide, [1, 2, 3], by decide, by decide, by decide⟩

end Pixerve
